import Mathlib

/-!
A verification development for the pipeline execution engine of this
repository (execution nodes, their buffers and demand protocol), the
`slice` operator, and the `write`/`to` composite operator construction.

The definitions are shallow embeddings of the C++ sources:

* `src/libvast/src/execution_node.cpp` — batch primitives (`size`,
  `split`), the per-node buffer defaults, `push`, `pull`,
  `advance_generator`, `deliver_batches`, the `run` loop, and the control
  plane's `abort`/diagnostic emission.
* `src/libtenzir/builtins/operators/slice.cpp` — the four bound-sign
  variants of the `slice` operator.
* `src/libvast/builtins/operators/write_to.cpp` — construction of
  `write FMT [to SINK]` and `to SINK [write FMT]`.

Machine integers (`uint64_t`, `int64_t`) are modelled as `Nat`/`Int`; none
of the embedded quantities approach 2^64, and the C++ arithmetic on them
never wraps on the inputs considered. Byte chunks (`chunk_ptr`) are
modelled as `List Nat` of their bytes, with the null chunk as the empty
list (the code only observes a chunk through `size` and `slice`, and
`size` of a null chunk is 0). Event batches (`table_slice`) are modelled
as lists of rows.
-/

namespace Spec2Proof

/-! ## Batch primitives: `size` and `split` (execution_node.cpp) -/

/-- A byte chunk (`chunk_ptr`). The null pointer is the empty list: the
engine observes chunks only through `size` (0 for null) and zero-copy
`slice`, so null and empty are indistinguishable here. -/
abbrev Chunk := List Nat

/-- `size(const chunk_ptr&)`: the number of bytes (0 for the null chunk). -/
def size (chunk : Chunk) : Nat :=
  chunk.length

/-- `split(const chunk_ptr&, size_t)` from execution_node.cpp: if the
partition point is 0 the first component is the null chunk; if it is at
least the chunk's size the second component is the null chunk; otherwise
the chunk is sliced in two at the partition point. -/
def splitChunk (chunk : Chunk) (partition_point : Nat) : Chunk × Chunk :=
  if partition_point = 0 then
    ([], chunk)
  else if size chunk ≤ partition_point then
    (chunk, [])
  else
    (chunk.take partition_point, chunk.drop partition_point)

/-- `split(std::vector<chunk_ptr>, uint64_t)` from execution_node.cpp:
walk the vector; on an exact element boundary cut between elements,
otherwise cut the straddling element with the single-chunk `split`. The
C++ loop is rendered as structural recursion on the vector. -/
def splitVec : List Chunk → Nat → List Chunk × List Chunk
  | [], _ => ([], [])
  | c :: cs, partition_point =>
    if partition_point = size c then
      ([c], cs)
    else if partition_point < size c then
      let s := splitChunk c partition_point
      ([s.1], s.2 :: cs)
    else
      let r := splitVec cs (partition_point - size c)
      (c :: r.1, r.2)

/-! ## Per-element-type defaults (execution_node.cpp, `defaults<>`) -/

/-- The numeric members of the `defaults<Element>` specializations. -/
structure ExecDefaults where
  max_batch_size : Nat
  min_batch_size : Nat
  max_buffered : Nat

/-- `defaults<table_slice>`: 64 Ki / 8 Ki / 254 Ki rows. -/
def table_slice_defaults : ExecDefaults :=
  { max_batch_size := 64 * 1024
    min_batch_size := 8 * 1024
    max_buffered := 254 * 1024 }

/-- `defaults<chunk_ptr>`: 1 Mi / 128 Ki / 4 Mi bytes. -/
def chunk_ptr_defaults : ExecDefaults :=
  { max_batch_size := 1024 * 1024
    min_batch_size := 128 * 1024
    max_buffered := 4 * 1024 * 1024 }

/-! ## The inbound side of an execution node: `push`

`exec_node_state<Input, Output>` is generic over the input element type;
the embedding keeps the element type `α` and its `size` overload `sz` as
parameters. -/

/-- The inbound fields of `exec_node_state` (`inbound_state_mixin`) plus
the counters `push` touches. -/
structure InNode (α : Type) where
  inbound_buffer : List α
  inbound_buffer_size : Nat
  num_inbound_batches : Nat
  inbound_total : Nat
  run_scheduled : Bool

/-- Result of a `caf::result<void>` returning handler: success or a typed
error. -/
inductive HandlerResult where
  | ok : HandlerResult
  | logic_error (msg : String) : HandlerResult
deriving DecidableEq, Repr

/-- `exec_node_state::push`: schedule a run, count the batch, reject a
zero-size batch, reject overflow of the inbound buffer, otherwise append
the elements and grow the counters. -/
def push {α : Type} (sz : α → Nat) (D : ExecDefaults) (s : InNode α)
    (input : List α) : InNode α × HandlerResult :=
  let s := { s with run_scheduled := true }
  let input_size := (input.map sz).sum
  let s := { s with num_inbound_batches := s.num_inbound_batches + input.length }
  if input_size = 0 then
    (s, .logic_error "received empty batch")
  else if D.max_buffered < s.inbound_buffer_size + input_size then
    (s, .logic_error "inbound buffer full")
  else
    ({ s with
        inbound_buffer := s.inbound_buffer ++ input
        inbound_buffer_size := s.inbound_buffer_size + input_size
        inbound_total := s.inbound_total + input_size },
      .ok)

/-! ## The outbound side of an execution node

`outbound_state_mixin<Output>` together with the handlers that touch it:
`pull`, `deliver_batches`, `advance_generator`, and the relevant parts of
`run`. Elements are tracked by their sizes (a `Nat` per buffered element);
the buffer-content reasoning that needs the bytes themselves is done
separately on `Chunk` via `splitChunk`/`splitVec`.

The C++ node is a CAF actor: `deliver_batches` sends `push` to the demand's
sink asynchronously and mutates the buffers only in the response handler.
The embedding therefore splits a delivery into the synchronous part
(marking the demand `ongoing` and capturing `capped_demand`) and two
response events (`ack_ok`, `ack_err`) that run the C++ response handlers. -/

/-- The pending demand stored in `outbound_state_mixin::current_demand`.
`capped` is the `capped_demand` value captured by the in-flight push's
response handler (meaningful only while `ongoing`). Timestamps are
abstract clock ticks. -/
structure Demand where
  batch_size : Nat
  batch_timeout : Nat
  ongoing : Bool
  capped : Nat
deriving DecidableEq, Repr

/-- The outbound fields of `exec_node_state`: the remaining generator
yields (each a size; 0 is an empty fairness yield), the outbound buffer
(element sizes), the running `outbound_buffer_size` counter, the open
demand, the `reject_demand` flag, the scheduled-run flag, and whether the
actor has quit. -/
structure OutNode where
  gen : List Nat
  outbound_buffer : List Nat
  outbound_buffer_size : Nat
  current_demand : Option Demand
  reject_demand : Bool
  run_scheduled : Bool
  done : Bool
deriving DecidableEq, Repr

/-- `exec_node_state::schedule_run` (the generator instance exists for a
started node, so only the `run_scheduled` latch matters). -/
def schedule_run (s : OutNode) : OutNode :=
  { s with run_scheduled := true }

/-- What a `pull` handler invocation reports back to the requesting
downstream node. `delayed_ack d` is the reject-demand branch: the handler
makes a response promise (which marks the request as answered, so the
plain `return {}` sends nothing) and `detail::weak_run_delayed` fulfills
it successfully, with no data pushed, `d` ticks later. `pending` means the
promise was stored in `current_demand`, to be fulfilled by a later
delivery. -/
inductive PullResult where
  | delayed_ack (delay : Nat) : PullResult
  | logic_error (msg : String) : PullResult
  | pending : PullResult
deriving DecidableEq, Repr

/-- `exec_node_state::pull` at clock time `now`. -/
def pull (s : OutNode) (now batch_size batch_timeout : Nat) :
    OutNode × PullResult :=
  if s.reject_demand then
    (s, .delayed_ack batch_timeout)
  else
    let s := schedule_run s
    match s.current_demand with
    | some _ => (s, .logic_error "concurrent pull")
    | none =>
      let d : Demand :=
        { batch_size := batch_size
          batch_timeout := now + batch_timeout
          ongoing := false
          capped := 0 }
      ({ s with current_demand := some d }, .pending)

/-- The synchronous part of `exec_node_state::deliver_batches(now, force)`:
return early if there is no demand or the demand is ongoing; hold unless
forced while the hold condition applies; otherwise mark the demand ongoing
and either short-circuit a zero delivery or capture `capped_demand` for
the in-flight push (the buffer itself is mutated by the response
handler, `ack_ok`). -/
def deliver_batches (s : OutNode) (now : Nat) (force : Bool) : OutNode :=
  match s.current_demand with
  | none => s
  | some d =>
    if d.ongoing then s
    else if ¬force ∧ ((s.gen = [] ∨ s.outbound_buffer_size < d.batch_size)
        ∧ now < d.batch_timeout) then
      s
    else
      let capped_demand := min s.outbound_buffer_size d.batch_size
      if capped_demand = 0 then
        schedule_run { s with current_demand := none }
      else
        let d' : Demand := { d with ongoing := true, capped := capped_demand }
        { s with current_demand := some d' }

/-- The response handler installed by `deliver_batches` for a successful
push: re-split the outbound buffer at the captured `capped_demand`, keep
the remainder, recount `outbound_buffer_size`, deliver the promise, clear
the demand and schedule a run. Splitting by sizes mirrors
`split(std::vector<chunk_ptr>, uint64_t)` at the size level. -/
def splitSizes : List Nat → Nat → List Nat × List Nat
  | [], _ => ([], [])
  | x :: xs, partition_point =>
    if partition_point = x then
      ([x], xs)
    else if partition_point < x then
      ([partition_point], (x - partition_point) :: xs)
    else
      let r := splitSizes xs (partition_point - x)
      (x :: r.1, r.2)

/-- `deliver_batches`'s `handle_result` (the successful push response). -/
def ack_ok (s : OutNode) (capped : Nat) : OutNode :=
  let rhs := (splitSizes s.outbound_buffer capped).2
  { s with
      outbound_buffer := rhs
      outbound_buffer_size := rhs.sum
      current_demand := none
      run_scheduled := true }

/-- `deliver_batches`'s `handle_error` (the failed push response): forward
the error through the promise, clear the demand, schedule a run. -/
def ack_err (s : OutNode) : OutNode :=
  { s with current_demand := none, run_scheduled := true }

/-- `exec_node_state::advance_generator` for a node with real output:
refuse when the outbound buffer is at or above `max_buffered`; otherwise
step the generator once, appending the yield to the outbound buffer when
it is non-empty. The returned Bool is `not empty and it != end` (whether
the run loop may advance again — moot, as `max_advances_per_run = 1`).
The abort-latch check after the step is not modelled (it only quits the
actor). The C++ asserts the generator is not at its end; on `[]` the
embedding returns the state unchanged. -/
def advance_generator (D : ExecDefaults) (s : OutNode) : OutNode × Bool :=
  if D.max_buffered ≤ s.outbound_buffer_size then
    (s, false)
  else
    match s.gen with
    | [] => (s, false)
    | next :: rest =>
      if 0 < next then
        ({ s with
            gen := rest
            outbound_buffer := s.outbound_buffer ++ [next]
            outbound_buffer_size := s.outbound_buffer_size + next },
          false)
      else
        ({ s with gen := rest }, ¬rest.isEmpty)

/-- The body of `exec_node_state::run` at clock time `now`, restricted to
the fields of `OutNode` (the input-side actions `request_more_input` and
the inbound part of the adapter do not touch them). The scheduling tail is
the source-node variant; the transformation variant differs only in when
`run_scheduled` is set again, which no claim here depends on. -/
def run_body (D : ExecDefaults) (s : OutNode) (now : Nat) : OutNode :=
  if s.gen = [] then
    let s :=
      if s.current_demand.isSome ∧ s.outbound_buffer_size = 0 then
        { s with reject_demand := true }
      else s
    if s.current_demand.isSome ∨ 0 < s.outbound_buffer_size then
      schedule_run (deliver_batches s now true)
    else
      { s with done := true }
  else
    let s := deliver_batches s now false
    let s := (advance_generator D s).1
    if s.current_demand.isSome
        ∨ (s.outbound_buffer_size < D.max_buffered ∧ s.gen ≠ []) then
      schedule_run s
    else
      s

/-- `exec_node_state::run`: the scheduler action consumed the
`run_scheduled` latch right before invoking `run()`. -/
def run (D : ExecDefaults) (s : OutNode) (now : Nat) : OutNode :=
  run_body D { s with run_scheduled := false } now

/-- One asynchronous event on the outbound side of a live node: an
incoming `pull`, the scheduled `run` action firing, or a push response
arriving for the ongoing delivery. -/
inductive Step (D : ExecDefaults) : OutNode → OutNode → Prop
  | pull (s : OutNode) (now batch_size batch_timeout : Nat)
      (hlive : s.done = false) :
      Step D s (pull s now batch_size batch_timeout).1
  | run (s : OutNode) (now : Nat) (hlive : s.done = false)
      (hsched : s.run_scheduled = true) :
      Step D s (run D s now)
  | ack_ok (s : OutNode) (d : Demand) (hlive : s.done = false)
      (hd : s.current_demand = some d) (hongoing : d.ongoing = true) :
      Step D s (ack_ok s d.capped)
  | ack_err (s : OutNode) (d : Demand) (hlive : s.done = false)
      (hd : s.current_demand = some d) (hongoing : d.ongoing = true) :
      Step D s (ack_err s)

/-- The initial outbound state of a freshly started node whose operator
instance will yield `gen`. -/
def initOut (gen : List Nat) : OutNode :=
  { gen := gen
    outbound_buffer := []
    outbound_buffer_size := 0
    current_demand := none
    reject_demand := false
    run_scheduled := false
    done := false }

/-- States reachable from a freshly started node. -/
inductive Reachable (D : ExecDefaults) (gen : List Nat) : OutNode → Prop
  | init : Reachable D gen (initOut gen)
  | step {s s' : OutNode} : Reachable D gen s → Step D s s' →
      Reachable D gen s'

/-! ## Diagnostics and the control plane's `abort`
(execution_node.cpp, `exec_node_diagnostic_handler` and
`exec_node_control_plane`) -/

/-- A `caf::error` as the control plane observes it: either the silent
sentinel `ec::silent` or an ordinary error, carried here by its formatted
message. -/
inductive Err where
  | silent : Err
  | mk (msg : String) : Err
deriving DecidableEq, Repr

/-- `fmt::to_string(error)`. The exact rendering is irrelevant to the
claims; it only matters that it is a function of the error. -/
def errToString : Err → String
  | .silent => "silent"
  | .mk msg => msg

/-- Severity of a diagnostic. -/
inductive Severity where
  | warning
  | error
deriving DecidableEq, Repr

/-- A diagnostic record as sent to the diagnostic receiver actor. -/
structure Diagnostic where
  severity : Severity
  message : String
deriving DecidableEq, Repr

/-- The state touched by `exec_node_control_plane::abort` and
`exec_node_diagnostic_handler::emit`: the handler's `has_seen_error_`
latch, the node's `abort` error latch (`exec_node_state::abort`, stored as
an `ec::silent` error wrapping a formatted message), and the list of
diagnostics sent to the diagnostic receiver, in order. -/
structure CtrlState where
  has_seen_error : Bool
  abort_latch : Option String
  emitted : List Diagnostic
deriving DecidableEq, Repr

/-- `abort(ec::silent)`: no diagnostic is built; set the node's abort
latch if it is unset. -/
def abortSilent (s : CtrlState) : CtrlState :=
  if s.abort_latch.isNone then
    { s with abort_latch := some (errToString .silent) }
  else
    s

/-- `exec_node_diagnostic_handler::emit`: always send the diagnostic to
the receiver; on the first error-severity diagnostic set `has_seen_error_`
and call `ctrl->abort(ec::silent)`. -/
def emit (s : CtrlState) (d : Diagnostic) : CtrlState :=
  let s := { s with emitted := s.emitted ++ [d] }
  if d.severity = .error ∧ s.has_seen_error = false then
    abortSilent { s with has_seen_error := true }
  else
    s

/-- `exec_node_control_plane::abort(error)`: for a non-silent error build
an error diagnostic and emit it, then set the node's abort latch if it is
still unset. -/
def abort (s : CtrlState) (error : Err) : CtrlState :=
  let s :=
    if error ≠ .silent then
      emit s { severity := .error, message := errToString error }
    else
      s
  if s.abort_latch.isNone then
    { s with abort_latch := some (errToString error) }
  else
    s

/-- The control-plane state of a freshly created node. -/
def initCtrl : CtrlState :=
  { has_seen_error := false, abort_latch := none, emitted := [] }

/-! ## `write FMT [to SINK]` and `to SINK [write FMT]` construction
(write_to.cpp) -/

/-- The facts about a resolved printer plugin that the construction
consults. -/
structure PrinterPlugin where
  name : String
  printer_allows_joining : Bool
deriving DecidableEq, Repr

/-- The facts about a resolved saver plugin that the construction
consults. -/
structure SaverPlugin where
  name : String
  saver_requires_joining : Bool
deriving DecidableEq, Repr

/-- The operator(s) a successful construction produces: either the fused
`print_save_operator`, or a two-element pipeline of a `print_operator`
followed by a `save_operator`. -/
inductive MadeOperator where
  | print_save (printer saver : String) : MadeOperator
  | print_then_save (printer saver : String) : MadeOperator
deriving DecidableEq, Repr

/-- Errors surfaced by `make_operator`. Only the post-resolution branch is
embedded; parse and lookup failures precede it and do not decide the
claim. -/
inductive MakeError where
  | invalid_argument (msg : String) : MakeError
deriving DecidableEq, Repr

/-- The tail of `write_plugin::make_operator` after the printer and saver
have been resolved: fail when the saver requires joining but the printer
does not allow it; build the fused operator when the saver does not
require joining; otherwise build `print FMT | save SINK`. -/
def write_make_operator (printer : PrinterPlugin) (saver : SaverPlugin) :
    Except MakeError MadeOperator :=
  if saver.saver_requires_joining ∧ ¬printer.printer_allows_joining then
    .error (.invalid_argument
      ("writing '" ++ printer.name ++ "' to '" ++ saver.name
        ++ "' is not allowed"))
  else if ¬saver.saver_requires_joining then
    .ok (.print_save printer.name saver.name)
  else
    .ok (.print_then_save printer.name saver.name)

/-- The tail of `to_plugin::make_operator` after resolution; the branch
structure in write_to.cpp is identical to the `write` plugin's. -/
def to_make_operator (printer : PrinterPlugin) (saver : SaverPlugin) :
    Except MakeError MadeOperator :=
  if saver.saver_requires_joining ∧ ¬printer.printer_allows_joining then
    .error (.invalid_argument
      ("writing '" ++ printer.name ++ "' to '" ++ saver.name
        ++ "' is not allowed"))
  else if ¬saver.saver_requires_joining then
    .ok (.print_save printer.name saver.name)
  else
    .ok (.print_then_save printer.name saver.name)

/-! ## The `slice` operator (slice.cpp)

An event batch (`table_slice`) is a list of rows; a stream of batches is a
list of batches. Each generator is embedded as a function from the list of
input batches to the list of yielded batches, where an empty fairness
yield (`co_yield {}`) is the empty batch `[]`. -/

/-- Modelled from the spec: `subslice(slice, begin, end)` is not under
src/ (it lives in the table-slice layer); per the spec an event batch
"supports zero-copy slicing `[begin, end)`". Rows with global indices in
`[begin, end)` are extracted; bounds outside the valid range are clamped,
so an empty or inverted interval yields no rows. -/
def subslice {α : Type} (slice : List α) (b e : Int) : List α :=
  (slice.take e.toNat).drop b.toNat

/-- The loop of `slice_operator::positive_begin_positive_end` at running
offset `o`: empty input batches are passed through as empty yields; a
non-empty batch is clamped to `[begin - o, end - o)` and yielded; the loop
breaks once the offset reaches `end`. -/
def pppAux {α : Type} (b e : Int) (o : Int) : List (List α) → List (List α)
  | [] => []
  | s :: rest =>
    if s.length = 0 then
      [] :: pppAux b e o rest
    else
      let clamped_begin := max 0 (b - o)
      let clamped_end := min (s.length : Int) (e - o)
      let result := subslice s clamped_begin clamped_end
      let o' := o + s.length
      result :: (if e ≤ o' then [] else pppAux b e o' rest)

/-- `slice_operator::positive_begin_positive_end`. -/
def positive_begin_positive_end {α : Type} (b e : Int)
    (input : List (List α)) : List (List α) :=
  if e ≤ b then [] else pppAux b e 0 input

/-- The first loop of `slice_operator::positive_begin_negative_end`:
yield an empty token per empty batch, buffer the suffix of each non-empty
batch from `begin - o` on (when non-empty), and accumulate the total row
count. Returns (final offset, buffer, yields). -/
def pneAux {α : Type} (b : Int) (o : Int) :
    List (List α) → Int × List (List α) × List (List α)
  | [] => (o, [], [])
  | s :: rest =>
    if s.length = 0 then
      let r := pneAux b o rest
      (r.1, r.2.1, [] :: r.2.2)
    else
      let clamped_begin := max 0 (b - o)
      let result := subslice s clamped_begin (s.length : Int)
      let r := pneAux b (o + s.length) rest
      (r.1, if 0 < result.length then result :: r.2.1 else r.2.1, r.2.2)

/-- The second loop of `slice_operator::positive_begin_negative_end`:
yield the prefix of each buffered batch up to the rewritten end, breaking
at the first empty result. -/
def pneEmit {α : Type} (e : Int) (o : Int) : List (List α) → List (List α)
  | [] => []
  | s :: rest =>
    let clamped_end := min (s.length : Int) (e - o)
    let result := subslice s 0 clamped_end
    if result.length = 0 then
      []
    else
      result :: pneEmit e (o + s.length) rest

/-- `slice_operator::positive_begin_negative_end`: buffer the
tail-truncated portion, rewrite `end` as `offset + end - begin`, and emit
from the buffer (nothing when the rewritten end is negative). -/
def positive_begin_negative_end {α : Type} (b e : Int)
    (input : List (List α)) : List (List α) :=
  let r := pneAux b 0 input
  let e' := r.1 + e - b
  r.2.2 ++ (if e' < 0 then [] else pneEmit e' 0 r.2.1)

/-- The first loop of `slice_operator::negative_begin_positive_end`:
yield an empty token per empty batch; for a non-empty batch, buffer its
prefix clamped to `end - o` — then the loop tests `result.rows()` on the
slice just consumed by `buffer.push_back(std::move(result))`, and a
moved-from `table_slice` is empty, so the `== 0` test is always taken and
the loop breaks after the first non-empty batch, leaving the rest of the
input unconsumed. Returns (final offset, buffer, yields). -/
def npeAux {α : Type} (e : Int) (o : Int) :
    List (List α) → Int × List (List α) × List (List α)
  | [] => (o, [], [])
  | s :: rest =>
    if s.length = 0 then
      let r := npeAux e o rest
      (r.1, r.2.1, [] :: r.2.2)
    else
      let clamped_end := min (s.length : Int) (e - o)
      let result := subslice s 0 clamped_end
      (o + s.length, [result], [])

/-- The second loop of `slice_operator::negative_begin_positive_end`:
emit the tail of each buffered batch from the rewritten begin on, skipping
batches that end before it and dropping empty results (no break). -/
def npeEmit {α : Type} (b : Int) (o : Int) : List (List α) → List (List α)
  | [] => []
  | s :: rest =>
    let clamped_begin := max 0 (b - o)
    let o' := o + s.length
    if (s.length : Int) ≤ clamped_begin then
      npeEmit b o' rest
    else
      let result := subslice s clamped_begin (s.length : Int)
      if 0 < result.length then
        result :: npeEmit b o' rest
      else
        npeEmit b o' rest

/-- `slice_operator::negative_begin_positive_end`: buffer (see `npeAux`),
rewrite `begin` as `offset + begin`, return early when the rewritten begin
is at or past the offset, else emit from the buffer. -/
def negative_begin_positive_end {α : Type} (b e : Int)
    (input : List (List α)) : List (List α) :=
  let r := npeAux e 0 input
  let b' := r.1 + b
  r.2.2 ++ (if r.1 ≤ b' then [] else npeEmit b' 0 r.2.1)

/-- The first loop of `slice_operator::negative_begin_negative_end`:
yield an empty token per empty batch, buffer every non-empty batch whole,
accumulate the total row count. Returns (final offset, buffer, yields). -/
def nneAux {α : Type} (o : Int) :
    List (List α) → Int × List (List α) × List (List α)
  | [] => (o, [], [])
  | s :: rest =>
    if s.length = 0 then
      let r := nneAux o rest
      (r.1, r.2.1, [] :: r.2.2)
    else
      let r := nneAux (o + s.length) rest
      (r.1, s :: r.2.1, r.2.2)

/-- The second loop of `slice_operator::negative_begin_negative_end`:
emit the window `[begin - o, end - o)` of each buffered batch, skipping
batches that end before `begin` and breaking at the first empty result. -/
def nneEmit {α : Type} (b e : Int) (o : Int) :
    List (List α) → List (List α)
  | [] => []
  | s :: rest =>
    let clamped_begin := max 0 (b - o)
    let clamped_end := min (s.length : Int) (e - o)
    let o' := o + s.length
    if (s.length : Int) ≤ clamped_begin then
      nneEmit b e o' rest
    else
      let result := subslice s clamped_begin clamped_end
      if result.length = 0 then
        []
      else
        result :: nneEmit b e o' rest

/-- `slice_operator::negative_begin_negative_end`: nothing when
`end ≤ begin`; otherwise buffer everything and emit
`[offset + begin, offset + end)`. -/
def negative_begin_negative_end {α : Type} (b e : Int)
    (input : List (List α)) : List (List α) :=
  if e ≤ b then
    []
  else
    let r := nneAux 0 input
    r.2.2 ++ nneEmit (r.1 + b) (r.1 + e) 0 r.2.1

/-- `slice_operator::operator()`: dispatch on the signs and presence of
the two bounds; with both bounds absent the input is passed through
unchanged. An absent bound defaults to 0 where the C++ uses
`value_or(0)`. -/
def slice_exec {α : Type} (begin_ end_ : Option Int)
    (input : List (List α)) : List (List α) :=
  if begin_ = none ∧ end_ = none then
    input
  else if 0 ≤ begin_.getD 0 then
    if end_.isSome ∧ 0 ≤ end_.getD 0 then
      positive_begin_positive_end (begin_.getD 0) (end_.getD 0) input
    else
      positive_begin_negative_end (begin_.getD 0) (end_.getD 0) input
  else
    if end_.isSome ∧ 0 ≤ end_.getD 0 then
      negative_begin_positive_end (begin_.getD 0) (end_.getD 0) input
    else
      negative_begin_negative_end (begin_.getD 0) (end_.getD 0) input

/-- The rows of `l` at global positions `[b, e)`, clamped to the valid
range: the reference semantics the claims compare against. -/
def rowsRange {α : Type} (l : List α) (b e : Int) : List α :=
  (l.take e.toNat).drop b.toNat

/-! ## Helper lemmas -/

theorem rowsRange_nil {α : Type} (b e : Int) :
    rowsRange ([] : List α) b e = [] := by
  simp [rowsRange]

theorem rowsRange_of_le {α : Type} {l : List α} {b e : Int} (h : e ≤ b) :
    rowsRange l b e = [] := by
  unfold rowsRange
  have hlen : (l.take e.toNat).length ≤ b.toNat := by
    rw [List.length_take]
    omega
  exact List.drop_eq_nil_of_le hlen

theorem rowsRange_of_nonpos {α : Type} {l : List α} {b e : Int}
    (h : e ≤ 0) : rowsRange l b e = [] := by
  unfold rowsRange
  have : e.toNat = 0 := by omega
  simp [this]

theorem rowsRange_of_len_le {α : Type} {l : List α} {b : Int} (e : Int)
    (h : (l.length : Int) ≤ b) : rowsRange l b e = [] := by
  unfold rowsRange
  have hlen : (l.take e.toNat).length ≤ b.toNat := by
    rw [List.length_take]
    omega
  exact List.drop_eq_nil_of_le hlen

theorem rowsRange_append {α : Type} (l₁ l₂ : List α) (b e : Int) :
    rowsRange (l₁ ++ l₂) b e
      = rowsRange l₁ b e
        ++ rowsRange l₂ (b - l₁.length) (e - l₁.length) := by
  unfold rowsRange
  rw [List.take_append_eq_append_take, List.drop_append_eq_append_drop]
  have h1 : (e - (l₁.length : Int)).toNat = e.toNat - l₁.length := by omega
  have h2 : (b - (l₁.length : Int)).toNat = b.toNat - l₁.length := by omega
  rw [h1, h2, List.length_take]
  rcases le_or_lt l₁.length e.toNat with h | h
  · rw [min_eq_right h]
  · have hz : e.toNat - l₁.length = 0 := by omega
    rw [hz]
    simp

theorem rowsRange_eq_nil_iff {α : Type} {l : List α} {b e : Int} :
    rowsRange l b e = [] ↔ min e.toNat l.length ≤ b.toNat := by
  unfold rowsRange
  rw [List.drop_eq_nil_iff, List.length_take]

theorem subslice_clamped {α : Type} (s : List α) (b e : Int) :
    subslice s (max 0 b) (min (s.length : Int) e) = rowsRange s b e := by
  unfold subslice rowsRange
  have h1 : (max 0 b).toNat = b.toNat := by omega
  have h2 : (min ((s.length : Int)) e).toNat = min s.length e.toNat := by
    omega
  rw [h1, h2]
  rcases le_total s.length e.toNat with h | h
  · rw [min_eq_left h, List.take_length, List.take_of_length_le h]
  · rw [min_eq_right h]

/-! ## C7: the `split` round-trip laws -/

theorem splitChunk_append (x : Chunk) (n : Nat) :
    (splitChunk x n).1 ++ (splitChunk x n).2 = x := by
  unfold splitChunk
  split
  · rfl
  · split
    · simp
    · exact List.take_append_drop n x

theorem splitChunk_length (x : Chunk) (n : Nat) :
    size (splitChunk x n).1 = min n (size x) := by
  unfold splitChunk size
  split
  · simp
    omega
  · split
    · next h1 h2 =>
      simp at h2 ⊢
      omega
    · next h1 h2 =>
      simp only [List.length_take]

theorem splitVec_flatten (chunks : List Chunk) (n : Nat) :
    (splitVec chunks n).1.flatten ++ (splitVec chunks n).2.flatten
      = chunks.flatten := by
  induction chunks generalizing n with
  | nil => simp [splitVec]
  | cons c cs ih =>
    unfold splitVec
    split
    · simp
    · split
      · simp only [List.flatten_cons, List.flatten_nil, List.append_nil]
        rw [← List.append_assoc, splitChunk_append]
      · simp only [List.flatten_cons, List.append_assoc]
        rw [ih]

theorem splitVec_size (chunks : List Chunk) (n : Nat) :
    ((splitVec chunks n).1.map size).sum
      = min n ((chunks.map size).sum) := by
  induction chunks generalizing n with
  | nil => simp [splitVec]
  | cons c cs ih =>
    unfold splitVec
    split
    · next h =>
      simp [size] at h ⊢
      omega
    · split
      · next h1 h2 =>
        simp only [List.map_cons, List.map_nil, List.sum_cons, List.sum_nil,
          splitChunk_length]
        simp [size] at h2 ⊢
        omega
      · next h1 h2 =>
        simp only [List.map_cons, List.sum_cons, ih]
        simp [size] at h1 h2 ⊢
        omega

/-- The structural shape of `splitVec`: either a cut exactly between
elements, or a cut through exactly one straddling element. -/
theorem splitVec_structure (chunks : List Chunk) (n : Nat) :
    (∃ k, (splitVec chunks n).1 = chunks.take k
        ∧ (splitVec chunks n).2 = chunks.drop k)
    ∨ (∃ fore c aft c₁ c₂, chunks = fore ++ c :: aft ∧ c = c₁ ++ c₂
        ∧ (splitVec chunks n).1 = fore ++ [c₁]
        ∧ (splitVec chunks n).2 = c₂ :: aft) := by
  induction chunks generalizing n with
  | nil => exact Or.inl ⟨0, rfl, rfl⟩
  | cons c cs ih =>
    unfold splitVec
    split
    · exact Or.inl ⟨1, rfl, rfl⟩
    · split
      · refine Or.inr ⟨[], c, cs, (splitChunk c n).1, (splitChunk c n).2,
          rfl, (splitChunk_append c n).symm, rfl, rfl⟩
      · rcases ih (n - size c) with ⟨k, h1, h2⟩ | ⟨fore, d, aft, c₁, c₂, hc, hd, h1, h2⟩
        · exact Or.inl ⟨k + 1, by simp [h1], by simp [h2]⟩
        · exact Or.inr ⟨c :: fore, d, aft, c₁, c₂, by simp [hc], hd,
            by simp [h1], by simp [h2]⟩

/-- C7: `split(x, n)` returns `(front, remainder)` with
`front ++ remainder = x` and `size front = min n (size x)`; the front is
the null chunk when `n = 0` and the remainder is the null chunk when
`n ≥ size x`. The vector `split` satisfies the same concatenation and
size equations over total size, and it cuts either exactly on an element
boundary or through exactly one straddling element. -/
theorem split_round_trip (x : Chunk) (n : Nat) (chunks : List Chunk)
    (m : Nat) :
    ((splitChunk x n).1 ++ (splitChunk x n).2 = x
      ∧ size (splitChunk x n).1 = min n (size x)
      ∧ (n = 0 → (splitChunk x n).1 = [])
      ∧ (size x ≤ n → (splitChunk x n).2 = []))
    ∧ ((splitVec chunks m).1.flatten ++ (splitVec chunks m).2.flatten
        = chunks.flatten
      ∧ ((splitVec chunks m).1.map size).sum
        = min m ((chunks.map size).sum)
      ∧ ((∃ k, (splitVec chunks m).1 = chunks.take k
            ∧ (splitVec chunks m).2 = chunks.drop k)
        ∨ (∃ fore c aft c₁ c₂, chunks = fore ++ c :: aft ∧ c = c₁ ++ c₂
            ∧ (splitVec chunks m).1 = fore ++ [c₁]
            ∧ (splitVec chunks m).2 = c₂ :: aft))) := by
  refine ⟨⟨splitChunk_append x n, splitChunk_length x n, ?_, ?_⟩,
    splitVec_flatten chunks m, splitVec_size chunks m,
    splitVec_structure chunks m⟩
  · intro h
    simp [splitChunk, h]
  · intro h
    unfold splitChunk
    rcases Nat.eq_zero_or_pos n with hn | hn
    · subst hn
      have hx : x = [] := by
        have : size x = 0 := by omega
        simpa [size, List.length_eq_zero] using this
      simp [hx]
    · simp [Nat.pos_iff_ne_zero.mp hn, h]

/-- Witness for the hypotheses of `split_round_trip`. -/
theorem split_round_trip_witness :
    (splitChunk [1, 2, 3] 0).1 = [] ∧ (splitChunk [1, 2] 5).2 = [] := by
  have h := split_round_trip [1, 2, 3] 0 [[1, 2], [3]] 1
  have h' := split_round_trip [1, 2] 5 [] 0
  exact ⟨h.1.2.2.1 rfl, h'.1.2.2.2 (by decide)⟩

/-! ## C5: the `push` contract -/

/-- C5: `push` succeeds exactly when the batch's total size is non-zero
and fits into the inbound buffer; on success the elements are appended in
order and the size counter grows by the total; on either rejection a
`logic_error` is returned and the buffer and its size counter are
unchanged. -/
theorem push_contract {α : Type} (sz : α → Nat) (D : ExecDefaults)
    (s : InNode α) (input : List α) :
    ((push sz D s input).2 = .ok
      ↔ (input.map sz).sum ≠ 0
        ∧ s.inbound_buffer_size + (input.map sz).sum ≤ D.max_buffered)
    ∧ ((push sz D s input).2 = .ok →
        (push sz D s input).1.inbound_buffer = s.inbound_buffer ++ input
        ∧ (push sz D s input).1.inbound_buffer_size
            = s.inbound_buffer_size + (input.map sz).sum)
    ∧ ((push sz D s input).2 ≠ .ok →
        (∃ msg, (push sz D s input).2 = .logic_error msg)
        ∧ (push sz D s input).1.inbound_buffer = s.inbound_buffer
        ∧ (push sz D s input).1.inbound_buffer_size
            = s.inbound_buffer_size) := by
  unfold push
  by_cases h0 : (input.map sz).sum = 0
  · simp [h0]
  · by_cases h1 : D.max_buffered < s.inbound_buffer_size + (input.map sz).sum
    · simp [h0, h1]
    · simp [h0, h1]
      omega

/-- Witness for `push_contract`: a one-element batch of size 5 into an
empty Events buffer is accepted and appended. -/
theorem push_contract_witness :
    (push (fun x => x) table_slice_defaults
        ⟨[], 0, 0, 0, false⟩ [5]).1.inbound_buffer = [] ++ [5]
    ∧ (push (fun x => x) table_slice_defaults
        ⟨[], 0, 0, 0, false⟩ [5]).1.inbound_buffer_size = 0 + 5 := by
  have h := push_contract (fun x => x) table_slice_defaults
    ⟨[], 0, 0, 0, false⟩ [5]
  have hok : (push (fun x => x) table_slice_defaults
      ⟨[], 0, 0, 0, false⟩ [5]).2 = .ok := by decide
  have h2 := h.2.1 hok
  exact ⟨h2.1, by simpa using h2.2⟩

/-! ## C1: the buffer bounds -/

/-- A node state one element below the Events outbound cap whose operator
is about to yield an element of size 2. -/
def c1_state : OutNode :=
  { gen := [2]
    outbound_buffer := [254 * 1024 - 1]
    outbound_buffer_size := 254 * 1024 - 1
    current_demand := none
    reject_demand := false
    run_scheduled := false
    done := false }

/-- C1 counterexample: the outbound bound does not hold immediately after
`advance_generator` appends a yielded element. A node reaches an outbound
buffer of 254 Ki − 1 rows (buffer strictly below the cap, so the guard
passes), its operator yields a 2-row batch, and the append leaves the
outbound size at 254 Ki + 1 > `max_buffered`. The state is reached from a
fresh node by a pull and two run turns. -/
theorem outbound_bound_counterexample :
    ∃ s : OutNode,
      Reachable table_slice_defaults [254 * 1024 - 1, 2] s
      ∧ table_slice_defaults.max_buffered < s.outbound_buffer_size := by
  have h0 : Reachable table_slice_defaults [254 * 1024 - 1, 2]
      (initOut [254 * 1024 - 1, 2]) := .init
  have h1 := h0.step
    (Step.pull (initOut [254 * 1024 - 1, 2]) 0 1000000000 1000000000 rfl)
  have h2 := h1.step (Step.run _ 0 (by decide) (by decide))
  have h3 := h2.step (Step.run _ 0 (by decide) (by decide))
  exact ⟨_, h3, by decide⟩

/-- C1 amended: the inbound bound holds after every accepted `push`;
`advance_generator` steps only when the outbound size is strictly below
`max_buffered` (and leaves the state untouched otherwise), so immediately
after it appends a yield of size `next` the outbound size is at most
`max_buffered − 1 + next` — it may exceed `max_buffered` by up to one
element. -/
theorem buffer_bounds_amended {α : Type} (sz : α → Nat) (D : ExecDefaults)
    (sIn : InNode α) (input : List α) (s : OutNode) (next : Nat)
    (rest : List Nat) :
    ((push sz D sIn input).2 = .ok →
      (push sz D sIn input).1.inbound_buffer_size ≤ D.max_buffered)
    ∧ (D.max_buffered ≤ s.outbound_buffer_size →
        advance_generator D s = (s, false))
    ∧ (s.outbound_buffer_size < D.max_buffered → s.gen = next :: rest →
        (advance_generator D s).1.outbound_buffer_size
          ≤ D.max_buffered - 1 + next) := by
  refine ⟨?_, ?_, ?_⟩
  · intro hok
    unfold push at hok ⊢
    by_cases h0 : (input.map sz).sum = 0
    · simp [h0] at hok
    · by_cases h1 : D.max_buffered < sIn.inbound_buffer_size + (input.map sz).sum
      · simp [h0, h1] at hok
      · simp [h0, h1]
        omega
  · intro h
    unfold advance_generator
    simp [h]
  · intro h hgen
    unfold advance_generator
    rw [hgen]
    simp [Nat.not_le.mpr h]
    split
    · simp
      omega
    · simp
      omega

/-- Witness for `buffer_bounds_amended` at concrete inputs. -/
theorem buffer_bounds_amended_witness :
    (push (fun x => x) table_slice_defaults
        ⟨[], 0, 0, 0, false⟩ [5]).1.inbound_buffer_size
      ≤ table_slice_defaults.max_buffered
    ∧ advance_generator table_slice_defaults
        { c1_state with outbound_buffer_size := 254 * 1024 }
        = ({ c1_state with outbound_buffer_size := 254 * 1024 }, false)
    ∧ (advance_generator table_slice_defaults c1_state).1.outbound_buffer_size
        ≤ table_slice_defaults.max_buffered - 1 + 2 := by
  refine ⟨?_, ?_, ?_⟩
  · exact (buffer_bounds_amended (fun x => x) table_slice_defaults
      ⟨[], 0, 0, 0, false⟩ [5] c1_state 0 []).1 (by decide)
  · exact (buffer_bounds_amended (fun x => x) table_slice_defaults
      ⟨[], 0, 0, 0, false⟩ [5]
      { c1_state with outbound_buffer_size := 254 * 1024 } 0 []).2.1
      (by decide)
  · exact (buffer_bounds_amended (fun x => x) table_slice_defaults
      ⟨[], 0, 0, 0, false⟩ [5] c1_state 2 []).2.2 (by decide) (by decide)

/-! ## C8: `write`/`to` construction -/

/-- C8: after resolution, both `write FMT [to SINK]` and its mirror
`to SINK [write FMT]` fail with an invalid-argument error when the saver
requires joining and the printer disallows it; construct the fused
print+save operator when the saver does not require joining; and
construct `print FMT` followed by `save SINK` otherwise. -/
theorem write_to_construction (p : PrinterPlugin) (sv : SaverPlugin) :
    (sv.saver_requires_joining = true → p.printer_allows_joining = false →
      (∃ msg, write_make_operator p sv = .error (.invalid_argument msg))
      ∧ (∃ msg, to_make_operator p sv = .error (.invalid_argument msg)))
    ∧ (sv.saver_requires_joining = false →
      write_make_operator p sv = .ok (.print_save p.name sv.name)
      ∧ to_make_operator p sv = .ok (.print_save p.name sv.name))
    ∧ (sv.saver_requires_joining = true → p.printer_allows_joining = true →
      write_make_operator p sv = .ok (.print_then_save p.name sv.name)
      ∧ to_make_operator p sv = .ok (.print_then_save p.name sv.name)) := by
  refine ⟨?_, ?_, ?_⟩
  · intro h1 h2
    unfold write_make_operator to_make_operator
    simp [h1, h2]
  · intro h1
    unfold write_make_operator to_make_operator
    simp [h1]
  · intro h1 h2
    unfold write_make_operator to_make_operator
    simp [h1, h2]

/-- Witness for `write_to_construction`: a joining saver with a
non-joining printer is rejected; a non-joining saver gives the fused
operator; a joining saver with a joining printer gives the two-operator
pipeline. -/
theorem write_to_construction_witness :
    (∃ msg, write_make_operator ⟨"csv", false⟩ ⟨"stdout", true⟩
      = .error (.invalid_argument msg))
    ∧ write_make_operator ⟨"json", true⟩ ⟨"dir", false⟩
      = .ok (.print_save "json" "dir")
    ∧ to_make_operator ⟨"json", true⟩ ⟨"stdout", true⟩
      = .ok (.print_then_save "json" "stdout") := by
  refine ⟨?_, ?_, ?_⟩
  · exact ((write_to_construction ⟨"csv", false⟩ ⟨"stdout", true⟩).1
      rfl rfl).1
  · exact ((write_to_construction ⟨"json", true⟩ ⟨"dir", false⟩).2.1
      rfl).1
  · exact ((write_to_construction ⟨"json", true⟩ ⟨"stdout", true⟩).2.2
      rfl rfl).2

/-! ## C9: abort and diagnostics -/

/-- C9 counterexample: aborting twice with (distinct) non-silent errors
sends two error diagnostics to the diagnostic receiver, not one. -/
theorem abort_twice_counterexample :
    (abort (abort initCtrl (.mk "first failure")) (.mk "second failure")).emitted
      = [⟨.error, "first failure"⟩, ⟨.error, "second failure"⟩] := by
  rfl

/-- C9 amended: every non-silent `abort` emits one error diagnostic (so
two invocations emit two, one each); the first invocation sets the abort
latch and the second leaves it unchanged; a silent `abort` emits nothing
and sets the latch only if it is still unset. -/
theorem abort_amended (e1 e2 : Err) (s : CtrlState) :
    (e1 ≠ .silent → e2 ≠ .silent →
      (abort initCtrl e1).emitted = [⟨.error, errToString e1⟩]
      ∧ (abort (abort initCtrl e1) e2).emitted
          = [⟨.error, errToString e1⟩, ⟨.error, errToString e2⟩]
      ∧ (abort initCtrl e1).abort_latch.isSome
      ∧ (abort (abort initCtrl e1) e2).abort_latch
          = (abort initCtrl e1).abort_latch)
    ∧ (abort s .silent).emitted = s.emitted
    ∧ (s.abort_latch = none →
        (abort s .silent).abort_latch = some (errToString .silent))
    ∧ (∀ m, s.abort_latch = some m → (abort s .silent).abort_latch = some m) := by
  refine ⟨?_, ?_, ?_, ?_⟩
  · intro h1 h2
    unfold abort emit abortSilent initCtrl
    simp [h1, h2]
  · unfold abort
    by_cases h : s.abort_latch = none <;> simp [h]
  · intro h
    unfold abort
    simp [h]
  · intro m h
    unfold abort
    simp [h]

/-- Witness for `abort_amended` at concrete errors and state. -/
theorem abort_amended_witness :
    (abort (abort initCtrl (.mk "boom")) (.mk "crash")).emitted
      = [⟨.error, "boom"⟩, ⟨.error, "crash"⟩]
    ∧ (abort initCtrl .silent).abort_latch = some (errToString .silent) := by
  refine ⟨?_, ?_⟩
  · exact ((abort_amended (.mk "boom") (.mk "crash") initCtrl).1
      (by decide) (by decide)).2.1
  · exact (abort_amended (.mk "boom") (.mk "crash") initCtrl).2.2.1 rfl

/-! ## C4: `pull` on a node that rejects demand -/

/-- C4: when `reject_demand` is set, a `pull` leaves the node's state
untouched and produces a completion that is fulfilled successfully, with
no data pushed to the sink, exactly `batch_timeout` after the request
(the response promise marks the request as answered, so the handler's
plain return sends nothing, and `weak_run_delayed` delivers the promise
after the timeout). -/
theorem pull_reject_demand (s : OutNode) (now batch_size batch_timeout : Nat)
    (h : s.reject_demand = true) :
    pull s now batch_size batch_timeout = (s, .delayed_ack batch_timeout) := by
  unfold pull
  simp [h]

/-- Witness for `pull_reject_demand`: a drained node. -/
theorem pull_reject_demand_witness :
    pull { initOut [] with reject_demand := true } 3 64 250
      = ({ initOut [] with reject_demand := true }, .delayed_ack 250) :=
  pull_reject_demand { initOut [] with reject_demand := true } 3 64 250 rfl

/-! ## C6: concurrent pulls

The invariant below is what makes the claim unconditional over reachable
states: `reject_demand` is only ever set by the run loop in a state whose
demand is then immediately cleared, and a node that rejects demand never
stores a new one, so a pending demand implies `reject_demand` is unset and
the `pull` handler reaches the concurrent-pull check. -/

/-- The node invariant: a demand-rejecting node holds no demand, and an
ongoing delivery implies a non-empty outbound buffer. -/
def Inv (s : OutNode) : Prop :=
  (s.reject_demand = true → s.current_demand = none)
  ∧ (∀ d, s.current_demand = some d → d.ongoing = true →
      1 ≤ s.outbound_buffer_size)

theorem inv_init (gen : List Nat) : Inv (initOut gen) := by
  constructor
  · intro h
    simp [initOut] at h
  · intro d hd
    simp [initOut] at hd

/-! Equation lemmas reducing each handler on a known branch. -/

theorem pull_eq_rejecting (s : OutNode) (now batch_size batch_timeout : Nat)
    (hr : s.reject_demand = true) :
    pull s now batch_size batch_timeout = (s, .delayed_ack batch_timeout) := by
  unfold pull
  simp [hr]

theorem pull_eq_concurrent (s : OutNode) (d : Demand)
    (now batch_size batch_timeout : Nat)
    (hr : s.reject_demand = false) (hd : s.current_demand = some d) :
    pull s now batch_size batch_timeout
      = (schedule_run s, .logic_error "concurrent pull") := by
  unfold pull
  simp [hr, hd, schedule_run]

theorem pull_eq_store (s : OutNode) (now batch_size batch_timeout : Nat)
    (hr : s.reject_demand = false) (hd : s.current_demand = none) :
    pull s now batch_size batch_timeout
      = ({ schedule_run s with current_demand := some (Demand.mk batch_size (now + batch_timeout) false 0) }, .pending) := by
  unfold pull
  simp [hr, hd, schedule_run]

theorem deliver_eq_no_demand (s : OutNode) (now : Nat) (force : Bool)
    (hd : s.current_demand = none) :
    deliver_batches s now force = s := by
  unfold deliver_batches
  rw [hd]

theorem deliver_eq_ongoing (s : OutNode) (d : Demand) (now : Nat)
    (force : Bool) (hd : s.current_demand = some d)
    (ho : d.ongoing = true) :
    deliver_batches s now force = s := by
  unfold deliver_batches
  rw [hd]
  simp [ho]

theorem deliver_eq_hold (s : OutNode) (d : Demand) (now : Nat) (force : Bool)
    (hd : s.current_demand = some d) (ho : d.ongoing = false)
    (hhold : ¬force = true
      ∧ ((s.gen = [] ∨ s.outbound_buffer_size < d.batch_size)
        ∧ now < d.batch_timeout)) :
    deliver_batches s now force = s := by
  unfold deliver_batches
  rw [hd]
  simp only [ho, Bool.false_eq_true, if_false]
  rw [if_pos hhold]

theorem deliver_eq_zero (s : OutNode) (d : Demand) (now : Nat) (force : Bool)
    (hd : s.current_demand = some d) (ho : d.ongoing = false)
    (hhold : ¬(¬force = true
      ∧ ((s.gen = [] ∨ s.outbound_buffer_size < d.batch_size)
        ∧ now < d.batch_timeout)))
    (hcap : min s.outbound_buffer_size d.batch_size = 0) :
    deliver_batches s now force
      = schedule_run { s with current_demand := none } := by
  unfold deliver_batches
  rw [hd]
  simp only [ho, Bool.false_eq_true, if_false]
  rw [if_neg hhold, if_pos hcap]

theorem deliver_eq_send (s : OutNode) (d : Demand) (now : Nat) (force : Bool)
    (hd : s.current_demand = some d) (ho : d.ongoing = false)
    (hhold : ¬(¬force = true
      ∧ ((s.gen = [] ∨ s.outbound_buffer_size < d.batch_size)
        ∧ now < d.batch_timeout)))
    (hcap : ¬min s.outbound_buffer_size d.batch_size = 0) :
    deliver_batches s now force
      = { s with current_demand := some (Demand.mk d.batch_size d.batch_timeout true (min s.outbound_buffer_size d.batch_size)) } := by
  unfold deliver_batches
  rw [hd]
  simp only [ho, Bool.false_eq_true, if_false]
  rw [if_neg hhold, if_neg hcap]

theorem advance_eq_full (D : ExecDefaults) (s : OutNode)
    (h : D.max_buffered ≤ s.outbound_buffer_size) :
    advance_generator D s = (s, false) := by
  unfold advance_generator
  rw [if_pos h]

theorem advance_eq_end (D : ExecDefaults) (s : OutNode)
    (h : ¬D.max_buffered ≤ s.outbound_buffer_size) (hg : s.gen = []) :
    advance_generator D s = (s, false) := by
  unfold advance_generator
  rw [if_neg h, hg]

theorem advance_eq_yield (D : ExecDefaults) (s : OutNode) (next : Nat)
    (rest : List Nat) (h : ¬D.max_buffered ≤ s.outbound_buffer_size)
    (hg : s.gen = next :: rest) (hn : 0 < next) :
    advance_generator D s
      = ({ s with
            gen := rest
            outbound_buffer := s.outbound_buffer ++ [next]
            outbound_buffer_size := s.outbound_buffer_size + next },
          false) := by
  unfold advance_generator
  rw [if_neg h, hg]
  simp [hn]

theorem advance_eq_empty_yield (D : ExecDefaults) (s : OutNode) (next : Nat)
    (rest : List Nat) (h : ¬D.max_buffered ≤ s.outbound_buffer_size)
    (hg : s.gen = next :: rest) (hn : ¬0 < next) :
    advance_generator D s = ({ s with gen := rest }, !rest.isEmpty) := by
  unfold advance_generator
  rw [if_neg h, hg]
  simp [hn]
  cases rest <;> simp

theorem inv_pull (s : OutNode) (now batch_size batch_timeout : Nat)
    (h : Inv s) : Inv (pull s now batch_size batch_timeout).1 := by
  rcases hr : s.reject_demand
  · rcases hd : s.current_demand with _ | d
    · rw [pull_eq_store s now batch_size batch_timeout hr hd]
      refine ⟨fun hfalse => ?_, fun d' hd' ho' => ?_⟩
      · have hcontra : s.reject_demand = true := hfalse
        rw [hr] at hcontra
        cases hcontra
      · have : Demand.mk batch_size (now + batch_timeout) false 0 = d' :=
          Option.some.inj hd'
        rw [← this] at ho'
        cases ho'
    · rw [pull_eq_concurrent s d now batch_size batch_timeout hr hd]
      refine ⟨fun hfalse => ?_, fun d' hd' ho' => ?_⟩
      · have : s.reject_demand = true := hfalse
        rw [hr] at this
        cases this
      · exact h.2 d' (hd ▸ hd') ho'
  · rw [pull_eq_rejecting s now batch_size batch_timeout hr]
    exact h

theorem inv_deliver (s : OutNode) (now : Nat) (force : Bool) (h : Inv s) :
    Inv (deliver_batches s now force) := by
  rcases hd : s.current_demand with _ | d
  · rw [deliver_eq_no_demand s now force hd]
    exact h
  · rcases ho : d.ongoing
    · by_cases hhold : ¬force = true
          ∧ ((s.gen = [] ∨ s.outbound_buffer_size < d.batch_size)
            ∧ now < d.batch_timeout)
      · rw [deliver_eq_hold s d now force hd ho hhold]
        exact h
      · by_cases hcap : min s.outbound_buffer_size d.batch_size = 0
        · rw [deliver_eq_zero s d now force hd ho hhold hcap]
          exact ⟨fun _ => rfl, fun d' hd' => by cases hd'⟩
        · rw [deliver_eq_send s d now force hd ho hhold hcap]
          refine ⟨fun hrej => ?_, fun d' hd' ho' => ?_⟩
          · have : s.reject_demand = true := hrej
            rw [h.1 this] at hd
            cases hd
          · show 1 ≤ s.outbound_buffer_size
            omega
    · rw [deliver_eq_ongoing s d now force hd ho]
      exact h

theorem inv_advance (D : ExecDefaults) (s : OutNode) (h : Inv s) :
    Inv (advance_generator D s).1 := by
  by_cases hfull : D.max_buffered ≤ s.outbound_buffer_size
  · rw [advance_eq_full D s hfull]
    exact h
  · rcases hg : s.gen with _ | ⟨next, rest⟩
    · rw [advance_eq_end D s hfull hg]
      exact h
    · by_cases hn : 0 < next
      · rw [advance_eq_yield D s next rest hfull hg hn]
        refine ⟨h.1, fun d' hd' ho' => ?_⟩
        have := h.2 d' hd' ho'
        show 1 ≤ s.outbound_buffer_size + next
        omega
      · rw [advance_eq_empty_yield D s next rest hfull hg hn]
        exact h

theorem inv_run_body (D : ExecDefaults) (s : OutNode) (now : Nat)
    (h : Inv s) : Inv (run_body D s now) := by
  unfold run_body
  by_cases hg : s.gen = []
  · rw [if_pos hg]
    rcases hd : s.current_demand with _ | d
    · split
      · next h1 =>
        exact absurd h1.1 (by simp)
      · dsimp only
        split
        · next h2 =>
          rw [deliver_eq_no_demand s now true hd]
          exact ⟨fun _ => hd, h.2⟩
        · next h2 =>
          refine ⟨fun _ => hd, fun d' hd' ho' => ?_⟩
          have hx : s.current_demand = some d' := hd'
          rw [hd] at hx
          cases hx
    · split
      · next h1 =>
        have hongoing : d.ongoing = false := by
          rcases hoo : d.ongoing
          · rfl
          · exfalso
            have h12 := h1.2
            have := h.2 d hd hoo
            omega
        dsimp only
        split
        · next h2 =>
          rw [deliver_eq_zero { s with current_demand := some d, reject_demand := true } d now true rfl hongoing (fun hc => hc.1 rfl) (by obtain ⟨-, hz⟩ := h1; show min s.outbound_buffer_size d.batch_size = 0; omega)]
          exact ⟨fun _ => rfl, fun d' hd' => fun _ => Option.noConfusion hd'⟩
        · next h2 =>
          exact absurd (Or.inl rfl) h2
      · next h1 =>
        dsimp only
        split
        · next h2 =>
          have hdel := inv_deliver s now true h
          exact ⟨hdel.1, hdel.2⟩
        · next h2 =>
          exact absurd (Or.inl (by rw [hd]; rfl)) h2
  · rw [if_neg hg]
    have hinva : Inv (advance_generator D (deliver_batches s now false)).1 :=
      inv_advance D _ (inv_deliver s now false h)
    dsimp only
    split
    · exact ⟨hinva.1, hinva.2⟩
    · exact hinva

theorem inv_run (D : ExecDefaults) (s : OutNode) (now : Nat) (h : Inv s) :
    Inv (run D s now) :=
  inv_run_body D { s with run_scheduled := false } now ⟨h.1, h.2⟩

theorem inv_step (D : ExecDefaults) {s s' : OutNode} (h : Inv s)
    (hstep : Step D s s') : Inv s' := by
  cases hstep with
  | pull now batch_size batch_timeout hlive =>
    exact inv_pull s now batch_size batch_timeout h
  | run now hlive hsched =>
    exact inv_run D s now h
  | ack_ok d hlive hd hongoing =>
    exact ⟨fun _ => rfl, fun d' hd' => by cases hd'⟩
  | ack_err d hlive hd hongoing =>
    exact ⟨fun _ => rfl, fun d' hd' => by cases hd'⟩

theorem reachable_inv (D : ExecDefaults) (gen : List Nat) (s : OutNode)
    (h : Reachable D gen s) : Inv s := by
  induction h with
  | init => exact inv_init gen
  | step hr hstep ih => exact inv_step D ih hstep

/-- C6: on any reachable state of a node with real output, a `pull`
arriving while a demand is already pending is rejected with the
`logic_error` "concurrent pull", and the pending demand is left
unchanged. -/
theorem concurrent_pull (D : ExecDefaults) (gen : List Nat) (s : OutNode)
    (d : Demand) (now batch_size batch_timeout : Nat)
    (hreach : Reachable D gen s) (hd : s.current_demand = some d) :
    (pull s now batch_size batch_timeout).2 = .logic_error "concurrent pull"
    ∧ (pull s now batch_size batch_timeout).1.current_demand = some d := by
  have hinv := reachable_inv D gen s hreach
  have hr : s.reject_demand = false := by
    rcases hrr : s.reject_demand
    · rfl
    · rw [hinv.1 hrr] at hd
      cases hd
  rw [pull_eq_concurrent s d now batch_size batch_timeout hr hd]
  exact ⟨rfl, hd⟩

/-- Witness for `concurrent_pull`: a node that stored a demand from a
first pull rejects a second, concurrent pull. -/
theorem concurrent_pull_witness :
    (pull (pull (initOut [1]) 0 64 250).1 1 64 250).2
      = .logic_error "concurrent pull" := by
  have h0 : Reachable table_slice_defaults [1] (initOut [1]) := .init
  have h1 := h0.step (Step.pull (initOut [1]) 0 64 250 rfl)
  exact (concurrent_pull table_slice_defaults [1]
    (pull (initOut [1]) 0 64 250).1
    { batch_size := 64, batch_timeout := 250, ongoing := false, capped := 0 }
    1 64 250 h1 (by decide)).1

/-! ## C2: `slice` with non-negative bounds -/

theorem pppAux_flatten {α : Type} (b e : Int)
    (bs : List (List α)) : ∀ o : Int, 0 ≤ o → o < e →
    (pppAux b e o bs).flatten = rowsRange bs.flatten (b - o) (e - o) := by
  induction bs with
  | nil =>
    intro o _ _
    simp [pppAux, rowsRange]
  | cons s rest ih =>
    intro o ho hoe
    by_cases hs : s.length = 0
    · have hsnil : s = [] := List.length_eq_zero.mp hs
      simp only [pppAux, hs, if_pos rfl, List.flatten_cons, List.flatten_nil,
        List.nil_append, hsnil]
      exact ih o ho hoe
    · simp only [pppAux, hs, if_false, List.flatten_cons]
      rw [rowsRange_append s rest.flatten (b - o) (e - o),
        subslice_clamped s (b - o) (e - o)]
      congr 1
      by_cases hbreak : e ≤ o + (s.length : Int)
      · simp only [hbreak, if_pos rfl, List.flatten_nil]
        exact (rowsRange_of_nonpos (by omega)).symm
      · simp only [hbreak, if_false]
        rw [ih (o + s.length) (by omega) (by omega)]
        congr 1 <;> omega

/-- C2: for `0 ≤ b ≤ e ≤ N`, the slice operator with both bounds
non-negative yields exactly the rows at global positions `[b, e)` of the
input stream, in order. -/
theorem slice_positive_bounds {α : Type} (bs : List (List α)) (b e : Int)
    (hb : 0 ≤ b) (hbe : b ≤ e) (_hN : e ≤ (bs.flatten.length : Int)) :
    (slice_exec (some b) (some e) bs).flatten = rowsRange bs.flatten b e := by
  have he : 0 ≤ e := le_trans hb hbe
  unfold slice_exec
  rw [if_neg (by simp)]
  rw [if_pos (by simpa using hb)]
  rw [if_pos ⟨rfl, by simpa using he⟩]
  simp only [Option.getD_some]
  unfold positive_begin_positive_end
  by_cases hbe' : e ≤ b
  · rw [if_pos hbe', rowsRange_of_le hbe']
    rfl
  · rw [if_neg hbe']
    have h := pppAux_flatten b e bs 0 (le_refl 0) (by omega)
    simpa using h

/-- Witness for `slice_positive_bounds`: `slice(1, 4)` over the batches
`[0,1]`, `[2,3,4]` yields rows 1, 2, 3. -/
theorem slice_positive_bounds_witness :
    (slice_exec (some 1) (some 4) [[0, 1], [2, 3, 4]] : List (List Nat)).flatten
      = rowsRange ([[0, 1], [2, 3, 4]] : List (List Nat)).flatten 1 4 :=
  slice_positive_bounds [[0, 1], [2, 3, 4]] 1 4 (by decide) (by decide)
    (by decide)

/-! ## C3: `slice` with negative bounds -/

theorem nneEmit_flatten {α : Type} (b e : Int) (hbe : b < e)
    (buf : List (List α)) : ∀ o : Int, 0 ≤ o →
    (nneEmit b e o buf).flatten = rowsRange buf.flatten (b - o) (e - o) := by
  induction buf with
  | nil =>
    intro o _
    simp [nneEmit, rowsRange]
  | cons s rest ih =>
    intro o ho
    by_cases hskip : (s.length : Int) ≤ max 0 (b - o)
    · simp only [nneEmit, if_pos hskip, List.flatten_cons]
      rw [rowsRange_append s rest.flatten (b - o) (e - o)]
      have hzero : rowsRange s (b - o) (e - o) = [] := by
        have hcase : s.length = 0 ∨ ((s.length : Int) ≤ b - o) := by omega
        rcases hcase with hc | hc
        · rw [List.length_eq_zero.mp hc]
          exact rowsRange_nil _ _
        · exact rowsRange_of_len_le _ hc
      rw [hzero, List.nil_append, ih (o + s.length) (by omega)]
      congr 1 <;> omega
    · simp only [nneEmit, if_neg hskip]
      rw [subslice_clamped s (b - o) (e - o)]
      by_cases hres : (rowsRange s (b - o) (e - o)).length = 0
      · simp only [hres, if_pos rfl, List.flatten_nil]
        have hnil : rowsRange s (b - o) (e - o) = [] :=
          List.length_eq_zero.mp hres
        have hmin := rowsRange_eq_nil_iff.mp hnil
        have heo : e - o ≤ 0 := by omega
        exact (rowsRange_of_nonpos heo).symm
      · simp only [hres, if_false, List.flatten_cons]
        rw [rowsRange_append s rest.flatten (b - o) (e - o)]
        rw [ih (o + s.length) (by omega),
          show b - (o + (s.length : Int)) = b - o - s.length from by ring,
          show e - (o + (s.length : Int)) = e - o - s.length from by ring]

theorem nneAux_spec {α : Type} (bs : List (List α)) : ∀ o : Int,
    (nneAux o bs).1 = o + bs.flatten.length
    ∧ (nneAux o bs).2.1.flatten = bs.flatten
    ∧ (nneAux o bs).2.2.flatten = ([] : List α) := by
  induction bs with
  | nil =>
    intro o
    simp [nneAux]
  | cons s rest ih =>
    intro o
    by_cases hs : s.length = 0
    · have hsnil : s = [] := List.length_eq_zero.mp hs
      subst hsnil
      simp only [nneAux, List.length_nil, if_pos rfl, List.flatten_cons,
        List.nil_append]
      exact ih o
    · simp only [nneAux, hs, if_false, List.flatten_cons]
      obtain ⟨h1, h2, h3⟩ := ih (o + s.length)
      refine ⟨by rw [h1]; simp only [List.length_append]; omega,
        by rw [h2], h3⟩

theorem pneAux_spec {α : Type} (b : Int) (bs : List (List α)) : ∀ o : Int,
    (pneAux b o bs).1 = o + bs.flatten.length
    ∧ (pneAux b o bs).2.1.flatten = bs.flatten.drop (b - o).toNat
    ∧ (pneAux b o bs).2.2.flatten = ([] : List α)
    ∧ (∀ s' ∈ (pneAux b o bs).2.1, s' ≠ ([] : List α)) := by
  induction bs with
  | nil =>
    intro o
    simp [pneAux]
  | cons s rest ih =>
    intro o
    by_cases hs : s.length = 0
    · have hsnil : s = [] := List.length_eq_zero.mp hs
      subst hsnil
      simp only [pneAux, List.length_nil, if_pos rfl, List.flatten_cons,
        List.nil_append]
      exact ih o
    · simp only [pneAux, hs, if_false, List.flatten_cons]
      obtain ⟨h1, h2, h3, h4⟩ := ih (o + s.length)
      have hsub : subslice s (max 0 (b - o)) ((s.length : Int))
          = s.drop (b - o).toNat := by
        unfold subslice
        have h5 : ((s.length : Int)).toNat = s.length := by omega
        have h6 : (max 0 (b - o)).toNat = (b - o).toNat := by omega
        rw [h5, h6, List.take_length]
      have hdrop : (s ++ rest.flatten).drop (b - o).toNat
          = s.drop (b - o).toNat
            ++ rest.flatten.drop (b - (o + s.length)).toNat := by
        rw [List.drop_append_eq_append_drop]
        congr 1
        congr 1
        omega
      refine ⟨by rw [h1]; simp only [List.length_append]; omega, ?_, h3, ?_⟩
      · by_cases hpos : 0 < (subslice s (max 0 (b - o)) ((s.length : Int))).length
        · rw [if_pos hpos]
          simp only [List.flatten_cons]
          rw [hsub, h2, hdrop]
        · rw [if_neg hpos]
          rw [h2, hdrop]
          have : s.drop (b - o).toNat = [] := by
            rw [hsub] at hpos
            exact List.length_eq_zero.mp (by omega)
          rw [this, List.nil_append]
      · intro s' hs'
        by_cases hpos : 0 < (subslice s (max 0 (b - o)) ((s.length : Int))).length
        · rw [if_pos hpos] at hs'
          rcases List.mem_cons.mp hs' with hh | hh
          · intro hcontra
            rw [hcontra] at hh
            rw [← hh] at hpos
            simp at hpos
          · exact h4 s' hh
        · rw [if_neg hpos] at hs'
          exact h4 s' hs'

theorem pneEmit_flatten {α : Type} (e : Int) (buf : List (List α))
    (hne : ∀ s' ∈ buf, s' ≠ ([] : List α)) : ∀ o : Int, 0 ≤ o →
    (pneEmit e o buf).flatten = buf.flatten.take (e - o).toNat := by
  induction buf with
  | nil =>
    intro o _
    simp [pneEmit]
  | cons s rest ih =>
    intro o ho
    have hs : s ≠ [] := hne s (List.mem_cons_self s rest)
    have hslen : 1 ≤ s.length := by
      rcases s with _ | _
      · exact absurd rfl hs
      · simp
    have hsub : subslice s 0 (min ((s.length : Int)) (e - o))
        = s.take (e - o).toNat := by
      unfold subslice
      rw [Int.toNat_zero, List.drop_zero]
      have h2 : (min ((s.length : Int)) (e - o)).toNat
          = min s.length (e - o).toNat := by omega
      rw [h2]
      rcases le_total s.length (e - o).toNat with h | h
      · rw [min_eq_left h, List.take_length, List.take_of_length_le h]
      · rw [min_eq_right h]
    simp only [pneEmit, hsub]
    by_cases hres : (s.take (e - o).toNat).length = 0
    · rw [if_pos hres]
      have hz : (e - o).toNat = 0 := by
        rw [List.length_take] at hres
        omega
      simp only [List.flatten_nil, List.flatten_cons]
      rw [hz]
      simp
    · rw [if_neg hres]
      simp only [List.flatten_cons]
      rw [ih (fun s' hs' => hne s' (List.mem_cons_of_mem s hs'))
        (o + s.length) (by omega)]
      rw [List.take_append_eq_append_take]
      congr 1
      congr 1
      omega

theorem npeAux_spec {α : Type} (e : Int) (pre : List (List α))
    (hpre : ∀ p ∈ pre, p = ([] : List α)) (s₁ : List α) (hs₁ : s₁ ≠ [])
    (rest : List (List α)) : ∀ o : Int,
    (npeAux e o (pre ++ s₁ :: rest)).1 = o + s₁.length
    ∧ (npeAux e o (pre ++ s₁ :: rest)).2.1
        = [subslice s₁ 0 (min ((s₁.length : Int)) (e - o))]
    ∧ (npeAux e o (pre ++ s₁ :: rest)).2.2.flatten = ([] : List α) := by
  induction pre with
  | nil =>
    intro o
    have hs : ¬s₁.length = 0 := by
      rcases s₁ with _ | _
      · exact absurd rfl hs₁
      · simp
    simp [List.nil_append, npeAux, hs]
  | cons p pre' ih =>
    intro o
    have hp : p = [] := hpre p (List.mem_cons_self p pre')
    have hlen : p.length = 0 := by rw [hp]; rfl
    simp only [List.cons_append, npeAux, hlen, if_pos rfl, List.flatten_cons]
    obtain ⟨h1, h2, h3⟩ := ih (fun q hq => hpre q (List.mem_cons_of_mem p hq)) o
    exact ⟨h1, h2, by simpa using h3⟩

theorem npeEmit_single {α : Type} (b : Int) (w : List α) (o : Int) :
    (npeEmit b o [w]).flatten = w.drop (max 0 (b - o)).toNat := by
  by_cases hskip : (w.length : Int) ≤ max 0 (b - o)
  · simp only [npeEmit, if_pos hskip, List.flatten_nil]
    have : w.length ≤ (max 0 (b - o)).toNat := by omega
    exact (List.drop_eq_nil_of_le this).symm
  · simp only [npeEmit, if_neg hskip]
    have hsub : subslice w (max 0 (b - o)) ((w.length : Int))
        = w.drop (max 0 (b - o)).toNat := by
      unfold subslice
      have h5 : ((w.length : Int)).toNat = w.length := by omega
      rw [h5, List.take_length]
    rw [hsub]
    by_cases hpos : 0 < (w.drop (max 0 (b - o)).toNat).length
    · rw [if_pos hpos]
      simp
    · rw [if_neg hpos]
      simp only [List.flatten_nil]
      exact (List.length_eq_zero.mp (by omega)).symm

/-- C3 counterexample: `slice(-2, 9)` over the two batches `[0..4]`,
`[5..9]` (`N = 10`, both bounds in range). The claimed semantics,
rows `[(N+b) mod N, (N+e) mod N) = [8, 9)`, would be the single row 8;
the operator instead consumes only the first batch (the emptiness test
after `buffer.push_back(std::move(result))` reads a moved-from slice and
always breaks), resolves the begin against that batch alone, and yields
rows 3 and 4. -/
theorem slice_negative_counterexample :
    (slice_exec (some (-2)) (some 9)
        ([[0, 1, 2, 3, 4], [5, 6, 7, 8, 9]] : List (List Nat))).flatten
      = [3, 4]
    ∧ rowsRange ([[0, 1, 2, 3, 4], [5, 6, 7, 8, 9]] : List (List Nat)).flatten
        (((10 : Int) + -2) % 10) (((10 : Int) + 9) % 10) = [8]
    ∧ ([3, 4] : List Nat) ≠ [8] := by
  refine ⟨by decide, by decide, by decide⟩

/-- C3 amended: with at least one strictly negative bound the operator
resolves bounds by Python-style clamping, not modulo — and the
negative-begin/positive-end combination further deviates by discarding
every batch after the first non-empty one. Precisely, over a stream of
batches with `N` total rows: negative/negative yields rows `[N+b, N+e)`
of the whole stream (clamped); positive/negative yields rows `[b, N+e)`
(clamped); negative/positive yields rows `[n₁+b, e)` of the first
non-empty batch only, where `n₁` is that batch's row count. -/
theorem slice_negative_bounds {α : Type} (bs : List (List α)) (b e : Int) :
    (b < 0 → e < 0 →
      (slice_exec (some b) (some e) bs).flatten
        = rowsRange bs.flatten ((bs.flatten.length : Int) + b)
            ((bs.flatten.length : Int) + e))
    ∧ (0 ≤ b → e < 0 →
      (slice_exec (some b) (some e) bs).flatten
        = rowsRange bs.flatten b ((bs.flatten.length : Int) + e))
    ∧ (b < 0 → 0 ≤ e →
      ∀ pre s₁ rest, bs = pre ++ s₁ :: rest → (∀ p ∈ pre, p = []) →
        s₁ ≠ [] →
      (slice_exec (some b) (some e) bs).flatten
        = rowsRange s₁ ((s₁.length : Int) + b) e) := by
  refine ⟨?_, ?_, ?_⟩
  · intro hb he
    unfold slice_exec
    rw [if_neg (by simp)]
    have hc2 : ¬(0 ≤ (some b).getD 0) := by
      simp only [Option.getD_some]
      omega
    rw [if_neg hc2]
    have hc3 : ¬((some e).isSome = true ∧ 0 ≤ (some e).getD 0) := by
      simp only [Option.isSome_some, Option.getD_some, true_and]
      omega
    rw [if_neg hc3]
    simp only [Option.getD_some]
    unfold negative_begin_negative_end
    by_cases heb : e ≤ b
    · rw [if_pos heb, rowsRange_of_le (by omega)]
      rfl
    · rw [if_neg heb]
      obtain ⟨h1, h2, h3⟩ := nneAux_spec bs 0
      rw [List.flatten_append, h3, List.nil_append]
      rw [nneEmit_flatten ((nneAux 0 bs).1 + b) ((nneAux 0 bs).1 + e)
        (by omega) (nneAux 0 bs).2.1 0 (le_refl 0)]
      rw [h2, h1]
      congr 1 <;> omega
  · intro hb he
    unfold slice_exec
    rw [if_neg (by simp)]
    rw [if_pos (by simpa using hb)]
    have hc3 : ¬((some e).isSome = true ∧ 0 ≤ (some e).getD 0) := by
      simp only [Option.isSome_some, Option.getD_some, true_and]
      omega
    rw [if_neg hc3]
    simp only [Option.getD_some]
    unfold positive_begin_negative_end
    obtain ⟨h1, h2, h3, h4⟩ := pneAux_spec b bs 0
    rw [List.flatten_append, h3, List.nil_append, h1]
    by_cases hneg : 0 + (bs.flatten.length : Int) + e - b < 0
    · rw [if_pos hneg, rowsRange_of_le (by omega)]
      rfl
    · rw [if_neg hneg]
      rw [pneEmit_flatten (0 + (bs.flatten.length : Int) + e - b)
        (pneAux b 0 bs).2.1 h4 0 (le_refl 0)]
      rw [h2]
      unfold rowsRange
      rw [List.drop_take]
      have eb : (b - 0).toNat = b.toNat := by omega
      have ee : (0 + (bs.flatten.length : Int) + e - b - 0).toNat
          = ((bs.flatten.length : Int) + e).toNat - b.toNat := by omega
      rw [eb, ee]
  · intro hb he pre s₁ rest hbs hpre hs₁
    subst hbs
    unfold slice_exec
    rw [if_neg (by simp)]
    have hc2 : ¬(0 ≤ (some b).getD 0) := by
      simp only [Option.getD_some]
      omega
    rw [if_neg hc2]
    rw [if_pos ⟨rfl, by simpa using he⟩]
    simp only [Option.getD_some]
    unfold negative_begin_positive_end
    obtain ⟨h1, h2, h3⟩ := npeAux_spec e pre hpre s₁ hs₁ rest 0
    rw [List.flatten_append, h3, List.nil_append, h1, h2]
    rw [if_neg (by omega)]
    rw [npeEmit_single (0 + (s₁.length : Int) + b)
      (subslice s₁ 0 (min ((s₁.length : Int)) (e - 0))) 0]
    unfold subslice rowsRange
    rw [Int.toNat_zero, List.drop_zero]
    have e2 : (min ((s₁.length : Int)) (e - 0)).toNat
        = min s₁.length e.toNat := by omega
    have e3 : (max 0 (0 + (s₁.length : Int) + b - 0)).toNat
        = ((s₁.length : Int) + b).toNat := by omega
    rw [e2, e3]
    congr 1
    rcases le_total s₁.length e.toNat with h | h
    · rw [min_eq_left h, List.take_length, List.take_of_length_le h]
    · rw [min_eq_right h]

/-- Witness for `slice_negative_bounds` at concrete inputs for each of
the three bound combinations. -/
theorem slice_negative_bounds_witness :
    (slice_exec (some (-3)) (some (-1))
        ([[0, 1], [2, 3, 4]] : List (List Nat))).flatten
      = rowsRange ([[0, 1], [2, 3, 4]] : List (List Nat)).flatten
          ((5 : Int) + -3) ((5 : Int) + -1)
    ∧ (slice_exec (some 1) (some (-2))
        ([[0, 1], [2, 3, 4]] : List (List Nat))).flatten
      = rowsRange ([[0, 1], [2, 3, 4]] : List (List Nat)).flatten 1
          ((5 : Int) + -2)
    ∧ (slice_exec (some (-2)) (some 9)
        ([[], [0, 1, 2, 3, 4], [5, 6, 7, 8, 9]] : List (List Nat))).flatten
      = rowsRange ([0, 1, 2, 3, 4] : List Nat) ((5 : Int) + -2) 9 := by
  refine ⟨?_, ?_, ?_⟩
  · have h := (slice_negative_bounds ([[0, 1], [2, 3, 4]] : List (List Nat))
      (-3) (-1)).1 (by decide) (by decide)
    simpa using h
  · have h := (slice_negative_bounds ([[0, 1], [2, 3, 4]] : List (List Nat))
      1 (-2)).2.1 (by decide) (by decide)
    simpa using h
  · have h := (slice_negative_bounds
      ([[], [0, 1, 2, 3, 4], [5, 6, 7, 8, 9]] : List (List Nat))
      (-2) 9).2.2 (by decide) (by decide) [[]] [0, 1, 2, 3, 4]
      [[5, 6, 7, 8, 9]] rfl (by decide) (by decide)
    simpa using h

/-! ## C10: no zero-size elements travel between linked nodes -/

theorem splitVec_front_nonempty (chunks : List Chunk) (n : Nat)
    (hne : ∀ c ∈ chunks, c ≠ []) (hn : 1 ≤ n) :
    ∀ c ∈ (splitVec chunks n).1, c ≠ [] := by
  induction chunks generalizing n with
  | nil =>
    intro c hc
    simp [splitVec] at hc
  | cons c0 cs ih =>
    intro c hc
    unfold splitVec at hc
    split at hc
    · next hb =>
      simp only [List.mem_singleton] at hc
      rw [hc]
      exact hne c0 (List.mem_cons_self c0 cs)
    · split at hc
      · next hb hlt =>
        simp only [List.mem_singleton] at hc
        rw [hc]
        unfold splitChunk
        rw [if_neg (by omega)]
        rw [if_neg (by unfold size at hlt ⊢; omega)]
        intro hcontra
        have hlen := congrArg List.length hcontra
        rw [List.length_take] at hlen
        simp only [List.length_nil] at hlen
        unfold size at hlt
        omega
      · next hb hlt =>
        rcases List.mem_cons.mp hc with hh | hh
        · rw [hh]
          exact hne c0 (List.mem_cons_self c0 cs)
        · refine ih (n - size c0) (fun c' hc' => hne c' (List.mem_cons_of_mem c0 hc')) ?_ c hh
          unfold size at hb hlt ⊢
          omega

/-- The remainder of the element split is all-non-empty as well: on the
boundary it is a suffix of the original elements, and the straddle case
puts the non-empty second half of the single-chunk `split` at its head.
This is the buffer `deliver_batches`'s `handle_result` keeps after a
delivery is acknowledged. -/
theorem splitVec_rest_nonempty (chunks : List Chunk) (n : Nat)
    (hne : ∀ c ∈ chunks, c ≠ []) :
    ∀ c ∈ (splitVec chunks n).2, c ≠ [] := by
  induction chunks generalizing n with
  | nil =>
    intro c hc
    simp [splitVec] at hc
  | cons c0 cs ih =>
    intro c hc
    unfold splitVec at hc
    split at hc
    · next hb =>
      exact hne c (List.mem_cons_of_mem c0 hc)
    · split at hc
      · next hb hlt =>
        rcases List.mem_cons.mp hc with hh | hh
        · rw [hh]
          unfold splitChunk
          by_cases h0 : n = 0
          · rw [if_pos h0]
            exact hne c0 (List.mem_cons_self c0 cs)
          · rw [if_neg h0]
            rw [if_neg (by unfold size at hlt ⊢; omega)]
            intro hcontra
            have hlen := congrArg List.length hcontra
            rw [List.length_drop] at hlen
            simp only [List.length_nil] at hlen
            unfold size at hlt
            omega
        · exact hne c (List.mem_cons_of_mem c0 hh)
      · next hb hlt =>
        exact ih (n - size c0)
          (fun c' hc' => hne c' (List.mem_cons_of_mem c0 hc')) c hc

/-- The size-level analogue for the machine model's `ack_ok`: the
remainder of `splitSizes` over an all-positive buffer is all-positive. -/
theorem splitSizes_rest_pos (l : List Nat) (p : Nat)
    (hpos : ∀ x ∈ l, 0 < x) : ∀ x ∈ (splitSizes l p).2, 0 < x := by
  induction l generalizing p with
  | nil =>
    intro x hx
    simp [splitSizes] at hx
  | cons y ys ih =>
    intro x hx
    unfold splitSizes at hx
    split at hx
    · exact hpos x (List.mem_cons_of_mem y hx)
    · split at hx
      · next hb hlt =>
        rcases List.mem_cons.mp hx with hh | hh
        · rw [hh]
          omega
        · exact hpos x (List.mem_cons_of_mem y hh)
      · next hb hlt =>
        exact ih (p - y) (fun x' hx' => hpos x' (List.mem_cons_of_mem y hx')) x hx

/-! Buffer-content preservation of each outbound-side event, leading to
the every-instant all-positive invariant over reachable states. -/

theorem pull_buffer (s : OutNode) (now batch_size batch_timeout : Nat) :
    (pull s now batch_size batch_timeout).1.outbound_buffer
      = s.outbound_buffer := by
  rcases hr : s.reject_demand
  · rcases hd : s.current_demand with _ | d
    · rw [pull_eq_store s now batch_size batch_timeout hr hd]
      rfl
    · rw [pull_eq_concurrent s d now batch_size batch_timeout hr hd]
      rfl
  · rw [pull_eq_rejecting s now batch_size batch_timeout hr]

theorem deliver_batches_buffer (s : OutNode) (now : Nat) (force : Bool) :
    (deliver_batches s now force).outbound_buffer = s.outbound_buffer := by
  rcases hd : s.current_demand with _ | d
  · rw [deliver_eq_no_demand s now force hd]
  · rcases ho : d.ongoing
    · by_cases hhold : ¬force = true
          ∧ ((s.gen = [] ∨ s.outbound_buffer_size < d.batch_size)
            ∧ now < d.batch_timeout)
      · rw [deliver_eq_hold s d now force hd ho hhold]
      · by_cases hcap : min s.outbound_buffer_size d.batch_size = 0
        · rw [deliver_eq_zero s d now force hd ho hhold hcap]
          rfl
        · rw [deliver_eq_send s d now force hd ho hhold hcap]
    · rw [deliver_eq_ongoing s d now force hd ho]

theorem allpos_advance (D : ExecDefaults) (s : OutNode)
    (hall : ∀ x ∈ s.outbound_buffer, 0 < x) :
    ∀ x ∈ (advance_generator D s).1.outbound_buffer, 0 < x := by
  intro x hx
  by_cases hfull : D.max_buffered ≤ s.outbound_buffer_size
  · rw [advance_eq_full D s hfull] at hx
    exact hall x hx
  · rcases hg : s.gen with _ | ⟨next, rest⟩
    · rw [advance_eq_end D s hfull hg] at hx
      exact hall x hx
    · by_cases hn : 0 < next
      · rw [advance_eq_yield D s next rest hfull hg hn] at hx
        simp only at hx
        rcases List.mem_append.mp hx with hh | hh
        · exact hall x hh
        · simp only [List.mem_singleton] at hh
          rw [hh]
          exact hn
      · rw [advance_eq_empty_yield D s next rest hfull hg hn] at hx
        exact hall x hx

theorem allpos_run_body (D : ExecDefaults) (s : OutNode) (now : Nat)
    (hall : ∀ x ∈ s.outbound_buffer, 0 < x) :
    ∀ x ∈ (run_body D s now).outbound_buffer, 0 < x := by
  unfold run_body
  by_cases hg : s.gen = []
  · rw [if_pos hg]
    split
    · dsimp only
      split
      · intro x hx
        have hx2 : x ∈ (deliver_batches
            { s with reject_demand := true } now true).outbound_buffer := hx
        rw [deliver_batches_buffer] at hx2
        exact hall x hx2
      · intro x hx
        exact hall x hx
    · dsimp only
      split
      · intro x hx
        have hx2 : x ∈ (deliver_batches s now true).outbound_buffer := hx
        rw [deliver_batches_buffer] at hx2
        exact hall x hx2
      · intro x hx
        exact hall x hx
  · rw [if_neg hg]
    have hadv := allpos_advance D (deliver_batches s now false)
      (by rw [deliver_batches_buffer]; exact hall)
    dsimp only
    split
    · intro x hx
      exact hadv x hx
    · exact hadv

theorem allpos_step (D : ExecDefaults) {s s' : OutNode}
    (hall : ∀ x ∈ s.outbound_buffer, 0 < x) (hstep : Step D s s') :
    ∀ x ∈ s'.outbound_buffer, 0 < x := by
  cases hstep with
  | pull now batch_size batch_timeout hlive =>
    intro x hx
    rw [pull_buffer] at hx
    exact hall x hx
  | run now hlive hsched =>
    exact allpos_run_body D { s with run_scheduled := false } now hall
  | ack_ok d hlive hd hongoing =>
    intro x hx
    have hx2 : x ∈ (splitSizes s.outbound_buffer d.capped).2 := hx
    exact splitSizes_rest_pos s.outbound_buffer d.capped hall x hx2
  | ack_err d hlive hd hongoing =>
    intro x hx
    exact hall x hx

theorem reachable_allpos (D : ExecDefaults) (gen : List Nat) (s : OutNode)
    (h : Reachable D gen s) : ∀ x ∈ s.outbound_buffer, 0 < x := by
  induction h with
  | init =>
    intro x hx
    simp [initOut] at hx
  | step hr hstep ih => exact allpos_step D ih hstep

/-- C10: elements of size zero never travel between correctly linked
nodes. In every reachable node state, every element of the outbound
buffer has positive size — it starts empty, `advance_generator` appends
only non-empty yields, and a delivery acknowledgement replaces it by the
split remainder, which is all-positive again (`splitSizes_rest_pos`); at
the element level both halves of the delivery `split` of an
all-non-empty buffer are all-non-empty, the front at `capped_demand ≥ 1`
with non-zero total, so every send after any number of partial
deliveries stays non-empty; the receiving `push` of any batch with
non-zero total never takes its "received empty batch" branch; and an
accepted push of non-empty chunks keeps the receiver's inbound buffer
(the source of the input adapter's dequeues) all-non-empty. -/
theorem no_empty_elements (D : ExecDefaults) (gen : List Nat)
    (s sm : OutNode) (st : InNode Chunk) (chunks : List Chunk) (n : Nat)
    (input : List Chunk) :
    ((∀ x ∈ s.outbound_buffer, 0 < x) →
      ∀ x ∈ (advance_generator D s).1.outbound_buffer, 0 < x)
    ∧ (Reachable D gen sm → ∀ x ∈ sm.outbound_buffer, 0 < x)
    ∧ ((∀ c ∈ chunks, c ≠ []) →
        (∀ c ∈ (splitVec chunks n).2, c ≠ [])
        ∧ (1 ≤ n → 1 ≤ ((chunks.map size).sum) →
            (∀ c ∈ (splitVec chunks n).1, c ≠ [])
            ∧ 1 ≤ (((splitVec chunks n).1.map size).sum)))
    ∧ (1 ≤ ((input.map size).sum) →
        (push size D st input).2 ≠ .logic_error "received empty batch")
    ∧ ((∀ c ∈ st.inbound_buffer, c ≠ []) → (∀ c ∈ input, c ≠ []) →
        (push size D st input).2 = .ok →
        ∀ c ∈ (push size D st input).1.inbound_buffer, c ≠ []) := by
  refine ⟨allpos_advance D s, reachable_allpos D gen sm, ?_, ?_, ?_⟩
  · intro hne
    refine ⟨splitVec_rest_nonempty chunks n hne, fun hn htot => ?_⟩
    refine ⟨splitVec_front_nonempty chunks n hne hn, ?_⟩
    rw [splitVec_size chunks n]
    omega
  · intro htot
    unfold push
    rw [if_neg (by omega)]
    split
    · show HandlerResult.logic_error "inbound buffer full"
        ≠ HandlerResult.logic_error "received empty batch"
      decide
    · show HandlerResult.ok ≠ HandlerResult.logic_error "received empty batch"
      decide
  · intro hbuf hin hok c hc
    unfold push at hok hc
    by_cases h0 : (input.map size).sum = 0
    · rw [if_pos h0] at hok
      cases hok
    · rw [if_neg h0] at hok hc
      by_cases h1 : D.max_buffered
          < st.inbound_buffer_size + (input.map size).sum
      · rw [if_pos h1] at hok
        cases hok
      · rw [if_neg h1] at hc
        simp only at hc
        rcases List.mem_append.mp hc with hh | hh
        · exact hbuf c hh
        · exact hin c hh

/-- Witness for `no_empty_elements` at concrete inputs, including a
reachable state (a pull followed by a run turn, which buffers the first
yield) for the every-instant invariant, and the remainder half of the
delivery split. -/
theorem no_empty_elements_witness :
    (∀ x ∈ (advance_generator chunk_ptr_defaults (initOut [3])).1.outbound_buffer, 0 < x)
    ∧ (∀ x ∈ (run chunk_ptr_defaults (pull (initOut [3]) 0 64 250).1 0).outbound_buffer, 0 < x)
    ∧ (∀ c ∈ (splitVec [[7, 7], [9]] 1).2, c ≠ [])
    ∧ (∀ c ∈ (splitVec [[7, 7], [9]] 1).1, c ≠ [])
    ∧ (push size chunk_ptr_defaults ⟨[], 0, 0, 0, false⟩ [[7]]).2
        ≠ .logic_error "received empty batch" := by
  have h0 : Reachable chunk_ptr_defaults [3] (initOut [3]) := .init
  have h1 := h0.step (Step.pull (initOut [3]) 0 64 250 rfl)
  have h2 := h1.step (Step.run _ 0 (by decide) (by decide))
  refine ⟨?_, ?_, ?_, ?_, ?_⟩
  · exact (no_empty_elements chunk_ptr_defaults [3] (initOut [3])
      (initOut [3]) ⟨[], 0, 0, 0, false⟩ [] 0 []).1 (by intro x hx; cases hx)
  · exact (no_empty_elements chunk_ptr_defaults [3] (initOut [3])
      (run chunk_ptr_defaults (pull (initOut [3]) 0 64 250).1 0)
      ⟨[], 0, 0, 0, false⟩ [] 0 []).2.1 h2
  · exact ((no_empty_elements chunk_ptr_defaults [3] (initOut [3])
      (initOut [3]) ⟨[], 0, 0, 0, false⟩ [[7, 7], [9]] 1 []).2.2.1
      (by decide)).1
  · exact (((no_empty_elements chunk_ptr_defaults [3] (initOut [3])
      (initOut [3]) ⟨[], 0, 0, 0, false⟩ [[7, 7], [9]] 1 []).2.2.1
      (by decide)).2 (by decide) (by decide)).1
  · exact (no_empty_elements chunk_ptr_defaults [3] (initOut [3])
      (initOut [3]) ⟨[], 0, 0, 0, false⟩ [] 0 [[7]]).2.2.2.1 (by decide)

end Spec2Proof
